import Mathlib

/-!
Shallow embedding of the mscolab collaborative-session layer
(`mslib/mscolab/sockets_manager.py`, `mslib/mscolab/models.py`,
`mslib/mscolab/utils.py`).

Python dictionaries are embedded as insertion-ordered association lists;
Python sets as `Finset Nat`; SQLAlchemy tables as lists of records inside
a `DB` structure.  A handler is a pure function from the database and the
socket-manager state to a new state together with the list of outputs
(socket emissions and room joins) it produces, in order.
-/

/-- Access levels of `Permission.access_level`
(`db.Enum("admin", "collaborator", "viewer", "creator")` in models.py). -/
inductive AccessLevel where
  | admin
  | collaborator
  | viewer
  | creator
deriving DecidableEq, Repr

/-- Message types. Modelled from the spec: `mslib/mscolab/message_type.py` is not
among the sources; the spec lists the types as text, system, image, document. -/
inductive MessageType where
  | TEXT
  | SYSTEM_MESSAGE
  | IMAGE
  | DOCUMENT
deriving DecidableEq, Repr

/-- A row of the `users` table (the fields the handlers use). -/
structure UserRec where
  id : Nat
  username : String
deriving DecidableEq, Repr

/-- A row of the `permissions` table. -/
structure PermissionRec where
  u_id : Nat
  op_id : Nat
  access_level : AccessLevel
deriving DecidableEq, Repr

/-- A row of the `messages` table.  `reply_id` is the nullable
self-referential foreign key (`none` = top-level message). -/
structure MessageRec where
  id : Nat
  op_id : Nat
  u_id : Nat
  text : String
  message_type : MessageType
  reply_id : Option Nat
  created_at : Nat
deriving DecidableEq, Repr

/-- A row of the `changes` table (immutable version record). -/
structure ChangeRec where
  id : Nat
  op_id : Nat
  u_id : Nat
  version_name : Option String
  comment : String
deriving DecidableEq, Repr

/-- The persistent store plus the external token-verification collaborator.
`tokens` maps a token string to the user id it authenticates
(`verify(token) -> UserId | Invalid` in the spec); `store_available`
models whether the persistence layer accepts writes (StoreFailure
taxonomy); `now` is a logical clock used for `created_at` timestamps. -/
structure DB where
  users : List UserRec
  tokens : List (String × Nat)
  permissions : List PermissionRec
  messages : List MessageRec
  changes : List ChangeRec
  documents : List (Nat × String)
  store_available : Bool
  now : Nat
deriving DecidableEq, Repr

/-- `User.verify_auth_token`: decode the token to a user id, then
`User.query.filter_by(id=...).first()`; `none` models both a bad token and
a vanished user. -/
def DB.verify_auth_token (db : DB) (token : String) : Option UserRec :=
  match (db.tokens.find? (fun p => p.1 == token)).map (fun p => p.2) with
  | none => none
  | some uid => db.users.find? (fun u => u.id == uid)

/-- `Permission.query.filter_by(u_id=u_id, op_id=op_id).first()`. -/
def DB.queryPermission (db : DB) (u_id op_id : Nat) : Option PermissionRec :=
  db.permissions.find? (fun p => p.u_id == u_id && p.op_id == op_id)

/-- `SocketsManager.permission_check_emit`: `False` when no permission row
exists or the access level is viewer, `True` otherwise. -/
def permission_check_emit (db : DB) (u_id op_id : Nat) : Bool :=
  match db.queryPermission u_id op_id with
  | none => false
  | some permission =>
    if permission.access_level = AccessLevel.viewer then false else true

/-- `SocketsManager.permission_check_admin`.  The Python body reads
`permission.access_level` without first checking `permission` for `None`;
when the query returns no row the attribute access raises, which this
embedding renders as `none` (`some b` is a normal boolean return). -/
def permission_check_admin (db : DB) (u_id op_id : Nat) : Option Bool :=
  match db.queryPermission u_id op_id with
  | none => none
  | some permission =>
    if permission.access_level = AccessLevel.creator ∨
       permission.access_level = AccessLevel.admin then some true else some false

/-- The serialized message dictionary built by `get_message_dict` in
`mslib/mscolab/utils.py`. -/
structure MessageDict where
  id : Nat
  u_id : Nat
  username : String
  text : String
  message_type : MessageType
  reply_id : Option Nat
  replies : List Nat
  time : Nat
deriving DecidableEq, Repr

/-- `get_message_dict(message)`: the flat dict sent to clients;
`username` resolves the author through the `user` relationship. -/
def get_message_dict (db : DB) (message : MessageRec) : MessageDict :=
  { id := message.id
    u_id := message.u_id
    username := ((db.users.find? (fun u => u.id == message.u_id)).map
      (fun u => u.username)).getD ""
    text := message.text
    message_type := message.message_type
    reply_id := message.reply_id
    replies := []
    time := message.created_at }

/-- The socket events the manager emits (event name plus payload). -/
inductive SocketEvent where
  | activeUserUpdate (op_id : Nat) (count : Nat)
  | operationListUpdate
  | chatMessageClient (msg : MessageDict)
  | chatMessageReplyClient (msg : MessageDict)
  | editMessageClient (message_id : Nat) (new_message_text : String)
  | deleteMessageClient (message_id : Nat)
  | fileChanged (op_id : Nat) (u_id : Option Nat)
  | newPermission (op_id : Nat) (u_id : Nat)
  | updatePermission (op_id : Nat) (u_id : Nat) (access_level : AccessLevel)
  | revokePermission (op_id : Nat) (u_id : Nat)
  | operationPermissionsUpdated (op_id : Nat) (u_id : Nat)
  | operationDeleted (op_id : Nat)
deriving DecidableEq, Repr

/-- Delivery scope of one `socketio.emit` call: `all` is a global broadcast
(no `room=` argument), `room r` is room-scoped, `conn s` targets the single
connection whose session id is `s`. -/
inductive Target where
  | all
  | room (r : String)
  | conn (sid : Nat)
deriving DecidableEq, Repr

/-- One outbound emission: the event together with its delivery scope. -/
structure Emission where
  event : SocketEvent
  target : Target
deriving DecidableEq, Repr

/-- A handler output: either a `socketio.emit` or a `join_room` by the
requesting connection. -/
inductive Output where
  | emit (e : Emission)
  | joinRoom (room : String)
deriving DecidableEq, Repr

/-- Delivery semantics of the transport: an emission reaches connection `c`
iff `c` is connected and the emission's scope covers it (`roomMembers`
lists the (room, connection) membership pairs). -/
def deliveredTo (roomMembers : List (String × Nat)) (connected : List Nat)
    (e : Emission) (c : Nat) : Bool :=
  connected.contains c &&
    match e.target with
    | Target.all => true
    | Target.room r => roomMembers.contains (r, c)
    | Target.conn s => c == s

/-- One entry of `SocketsManager.sockets`: the dict
`{'s_id': request.sid, 'u_id': user.id}`. -/
structure SocketEntry where
  s_id : Nat
  u_id : Nat
deriving DecidableEq, Repr

/-- The mutable state of a `SocketsManager` instance: the connection
registry `sockets` and the presence dict `active_users_per_operation`
(insertion-ordered association list of operation id to set of user ids). -/
structure SocketsState where
  sockets : List SocketEntry
  active_users_per_operation : List (Nat × Finset Nat)
deriving DecidableEq

/-- The state of a fresh `SocketsManager` (`self.sockets = []`,
`self.active_users_per_operation = {}`). -/
def initSocketsState : SocketsState :=
  { sockets := [], active_users_per_operation := [] }

/-- Dictionary lookup on the presence association list
(`self.active_users_per_operation[op_id]`, first matching key). -/
def lookupPresence (m : List (Nat × Finset Nat)) (k : Nat) : Option (Finset Nat) :=
  (m.find? (fun e => e.1 == k)).map (fun e => e.2)

/-- `SocketsManager.update_active_users(user_id)`: iterate over the
entries in order; wherever `user_id` is a member, remove it; keep the
entry iff its set stays non-empty, and emit `active-user-update` with the
new count (0 when the entry is dropped). -/
def update_active_users :
    List (Nat × Finset Nat) → Nat → List (Nat × Finset Nat) × List Emission
  | [], _ => ([], [])
  | (op_id, user_ids) :: rest, user_id =>
    let r := update_active_users rest user_id
    if user_id ∈ user_ids then
      let remaining := user_ids.erase user_id
      if remaining = ∅ then
        (r.1, Emission.mk (SocketEvent.activeUserUpdate op_id 0) Target.all :: r.2)
      else
        ((op_id, remaining) :: r.1,
          Emission.mk (SocketEvent.activeUserUpdate op_id remaining.card) Target.all :: r.2)
    else
      ((op_id, user_ids) :: r.1, r.2)

/-- `if op_id not in self.active_users_per_operation:
self.active_users_per_operation[op_id] = set()` — a missing key is
appended at the end with an empty set (Python dicts are
insertion-ordered). -/
def presenceSetDefault (m : List (Nat × Finset Nat)) (op_id : Nat) :
    List (Nat × Finset Nat) :=
  if m.any (fun e => e.1 == op_id) then m else m ++ [(op_id, (∅ : Finset Nat))]

/-- `self.active_users_per_operation[op_id].add(user_id)`. -/
def presenceAdd (m : List (Nat × Finset Nat)) (op_id user_id : Nat) :
    List (Nat × Finset Nat) :=
  m.map (fun e => if e.1 == op_id then (e.1, insert user_id e.2) else e)

/-- `SocketsManager.handle_operation_selected`: verify the token (silent
return on failure), remove the user from every other operation via
`update_active_users`, add it to `op_id`, and emit the new count.
The source emits with no `room=` argument, i.e. globally. -/
def handle_operation_selected (db : DB) (st : SocketsState)
    (token : String) (op_id : Nat) : SocketsState × List Emission :=
  match db.verify_auth_token token with
  | none => (st, [])
  | some user =>
    let r := update_active_users st.active_users_per_operation user.id
    let presence2 := presenceSetDefault r.1 op_id
    let presence3 := presenceAdd presence2 op_id user.id
    let active_count := ((lookupPresence presence3 op_id).getD ∅).card
    ({ st with active_users_per_operation := presence3 },
      r.2 ++ [Emission.mk (SocketEvent.activeUserUpdate op_id active_count) Target.all])

/-- `get_user_id(sockets, s_id)` from `mslib/mscolab/utils.py`: scan the
whole list, the last matching entry wins, `None` when there is none. -/
def get_user_id (sockets : List SocketEntry) (s_id : Nat) : Option Nat :=
  sockets.foldl (fun u_id ss => if ss.s_id == s_id then some ss.u_id else u_id) none

/-- `SocketsManager.handle_disconnect`: look the user up by the session
id; `if user_id:` (Python truthiness, so `None` and `0` both skip) remove
it from all presence sets; finally drop every registry entry whose
`s_id` equals the disconnecting session id. -/
def handle_disconnect (st : SocketsState) (sid : Nat) :
    SocketsState × List Emission :=
  let user_id := get_user_id st.sockets sid
  let r :=
    match user_id with
    | some u =>
      if u ≠ 0 then update_active_users st.active_users_per_operation u
      else (st.active_users_per_operation, [])
    | none => (st.active_users_per_operation, [])
  ({ sockets := st.sockets.filter (fun d => d.s_id != sid),
     active_users_per_operation := r.1 }, r.2)

/-- `SocketsManager.handle_start_event`: verify the token (silent return
on failure), fetch `Permission.query.filter_by(u_id=user.id).all()`, join
the room `str(permission.op_id)` for each permission (any access level),
then append `{'s_id': request.sid, 'u_id': user.id}` to the registry. -/
def handle_start_event (db : DB) (st : SocketsState) (sid : Nat)
    (token : String) : SocketsState × List Output :=
  match db.verify_auth_token token with
  | none => (st, [])
  | some user =>
    let permissions := db.permissions.filter (fun p => p.u_id == user.id)
    let joins := permissions.map (fun p => Output.joinRoom (toString p.op_id))
    ({ st with sockets := st.sockets ++ [SocketEntry.mk sid user.id] }, joins)

/-- `SocketsManager.emit_revoke_permission`: a single global emission
(the source passes no `room=` argument). -/
def emit_revoke_permission (u_id op_id : Nat) : List Emission :=
  [Emission.mk (SocketEvent.revokePermission op_id u_id) Target.all]

/-- Next autoincremented primary key for the `messages` table. -/
def freshMessageId (msgs : List MessageRec) : Nat :=
  (msgs.foldl (fun a m => max a m.id) 0) + 1

/-- Next autoincremented primary key for the `changes` table. -/
def freshChangeId (changes : List ChangeRec) : Nat :=
  (changes.foldl (fun a c => max a c.id) 0) + 1

/-- Modelled from the spec: `ChatManager.add_message` is not among the
sources (`mslib/mscolab/chat_manager.py` is absent).  Per the spec it
creates and persists one Message row (`reply_id = -1` sentinel means
top-level, stored as null) and returns it; the handler later serializes
it with `get_message_dict`. -/
def cm_add_message (db : DB) (user : UserRec) (text : String) (op_id : Nat)
    (message_type : MessageType) (reply_id : Int) : DB × MessageRec :=
  let rid : Option Nat := if reply_id = -1 then none else some reply_id.toNat
  let message : MessageRec :=
    { id := freshMessageId db.messages
      op_id := op_id
      u_id := user.id
      text := text
      message_type := message_type
      reply_id := rid
      created_at := db.now }
  ({ db with messages := db.messages ++ [message], now := db.now + 1 }, message)

/-- `SocketsManager.handle_message`: verify token (silent return on
failure), check `permission_check_emit` (silent drop on denial), create
the message via the chat manager and broadcast it on
`chat-message-client` when `reply_id == -1`, else on
`chat-message-reply-client`. -/
def handle_message (db : DB) (token : String) (op_id : Nat)
    (reply_id : Int) (message_text : String) : DB × List Emission :=
  match db.verify_auth_token token with
  | none => (db, [])
  | some user =>
    if permission_check_emit db user.id op_id then
      let r := cm_add_message db user message_text op_id MessageType.TEXT reply_id
      let new_message_dict := get_message_dict r.1 r.2
      if reply_id = -1 then
        (r.1, [Emission.mk (SocketEvent.chatMessageClient new_message_dict) Target.all])
      else
        (r.1, [Emission.mk (SocketEvent.chatMessageReplyClient new_message_dict) Target.all])
    else (db, [])

/-- Modelled from the spec: `FileManager.save_file` is not among the
sources (`mslib/mscolab/file_manager.py` is absent).  Per the spec it
persists exactly one new Change record and updates the document blob,
returning a truthy value on success; on StoreFailure it does not
partially apply (the store is left unchanged and the call reports
failure, rendered here as `none`). -/
def fm_save_file (db : DB) (op_id : Nat) (content : String) (user : UserRec)
    (version_name : Option String) (comment : String) : Option DB :=
  if db.store_available then
    some { db with
      changes := db.changes ++
        [ChangeRec.mk (freshChangeId db.changes) op_id user.id version_name comment]
      documents :=
        if db.documents.any (fun d => d.1 == op_id) then
          db.documents.map (fun d => if d.1 == op_id then (d.1, content) else d)
        else db.documents ++ [(op_id, content)] }
  else none

/-- `SocketsManager.handle_file_save`: verify token; `if perm and
self.fm.save_file(...)`: only when both the permission check and the
store write succeed, add one system chat message, broadcast it on
`chat-message-client`, then emit `file-changed`; otherwise nothing is
emitted and nothing is mutated. -/
def handle_file_save (db : DB) (token : String) (op_id : Nat)
    (content : String) (comment : String) (version_name : Option String)
    (messageText : String) : DB × List Emission :=
  match db.verify_auth_token token with
  | none => (db, [])
  | some user =>
    if permission_check_emit db user.id op_id then
      match fm_save_file db op_id content user version_name comment with
      | none => (db, [])
      | some db1 =>
        let message_ :=
          "[service message] **" ++ user.username ++ "** saved changes. " ++ messageText
        let r := cm_add_message db1 user message_ op_id MessageType.SYSTEM_MESSAGE (-1)
        let new_message_dict := get_message_dict r.1 r.2
        (r.1, [Emission.mk (SocketEvent.chatMessageClient new_message_dict) Target.all,
               Emission.mk (SocketEvent.fileChanged op_id (some user.id)) Target.all])
    else (db, [])

/-- Recursive cascade of the ORM relationship
`replies = db.relationship('Message', cascade='all,delete,delete-orphan')`
in models.py: deleting a message also deletes every message in its
`replies` collection, and so on recursively.  `fuel` bounds the
recursion; `delete_message` supplies `msgs.length`, enough to exhaust any
reply chain. -/
def deleteWithReplies : Nat → List MessageRec → Nat → List MessageRec
  | 0, msgs, message_id => msgs.filter (fun x => x.id != message_id)
  | fuel + 1, msgs, message_id =>
    let children := (msgs.filter (fun x => x.reply_id == some message_id)).map
      (fun x => x.id)
    let rest := msgs.filter (fun x => x.id != message_id)
    children.foldl (fun acc c => deleteWithReplies fuel acc c) rest

/-- Modelled from the spec: `ChatManager.delete_message` is not among the
sources.  It deletes the Message row with the given id; the cascade on
`Message.replies` (models.py) then removes its replies recursively. -/
def delete_message (msgs : List MessageRec) (message_id : Nat) : List MessageRec :=
  deleteWithReplies msgs.length msgs message_id

/-- Run a sequence of `operation-selected` events (pairs of token and
operation id) through `handle_operation_selected`, starting from the
given state and discarding emissions. -/
def runSelected (db : DB) : SocketsState → List (String × Nat) → SocketsState
  | st, [] => st
  | st, (token, op_id) :: evs =>
    runSelected db (handle_operation_selected db st token op_id).1 evs

/-- The presence invariant of the spec: keys are distinct (it is a dict)
and a user id appears in at most one value-set (pairwise disjoint
sets). -/
def PresenceInv (m : List (Nat × Finset Nat)) : Prop :=
  List.Pairwise (fun a b => a.1 ≠ b.1 ∧ Disjoint a.2 b.2) m

/-- A small concrete database: users 5 (creator on operation 1) and
6 (viewer on operation 1), authenticated by tokens "t5" and "t6". -/
def dbA : DB :=
  { users := [UserRec.mk 5 "alice", UserRec.mk 6 "bob"]
    tokens := [("t5", 5), ("t6", 6)]
    permissions := [PermissionRec.mk 5 1 AccessLevel.creator,
                    PermissionRec.mk 6 1 AccessLevel.viewer]
    messages := []
    changes := []
    documents := []
    store_available := true
    now := 0 }

/-- A chat history on operation 1: message 1 is top-level, message 2 is a
direct reply to it, message 3 is another top-level message. -/
def msgsA : List MessageRec :=
  [MessageRec.mk 1 1 5 "hello" MessageType.TEXT none 0,
   MessageRec.mk 2 1 6 "re" MessageType.TEXT (some 1) 1,
   MessageRec.mk 3 1 5 "other" MessageType.TEXT none 2]


/-! ### Helper lemmas about the presence dictionary -/

theorem uau_mem_subset {u : Nat} :
    ∀ {m : List (Nat × Finset Nat)} {e : Nat × Finset Nat},
      e ∈ (update_active_users m u).1 → ∃ e0 ∈ m, e.1 = e0.1 ∧ e.2 ⊆ e0.2 := by
  intro m
  induction m with
  | nil => intro e he; simp [update_active_users] at he
  | cons hd rest ih =>
    intro e he
    obtain ⟨op, s⟩ := hd
    simp only [update_active_users] at he
    by_cases hu : u ∈ s
    · simp only [hu, if_true] at he
      by_cases hrem : s.erase u = ∅
      · simp only [hrem, if_true] at he
        obtain ⟨e0, he0, h1, h2⟩ := ih he
        exact ⟨e0, List.mem_cons_of_mem _ he0, h1, h2⟩
      · simp only [hrem, if_false, List.mem_cons] at he
        rcases he with he | he
        · subst he
          exact ⟨(op, s), List.mem_cons_self _ _, rfl, Finset.erase_subset _ _⟩
        · obtain ⟨e0, he0, h1, h2⟩ := ih he
          exact ⟨e0, List.mem_cons_of_mem _ he0, h1, h2⟩
    · simp only [hu, if_false, List.mem_cons] at he
      rcases he with he | he
      · subst he
        exact ⟨(op, s), List.mem_cons_self _ _, rfl, le_refl _⟩
      · obtain ⟨e0, he0, h1, h2⟩ := ih he
        exact ⟨e0, List.mem_cons_of_mem _ he0, h1, h2⟩

theorem uau_not_mem {u : Nat} :
    ∀ {m : List (Nat × Finset Nat)} {e : Nat × Finset Nat},
      e ∈ (update_active_users m u).1 → u ∉ e.2 := by
  intro m
  induction m with
  | nil => intro e he; simp [update_active_users] at he
  | cons hd rest ih =>
    intro e he
    obtain ⟨op, s⟩ := hd
    simp only [update_active_users] at he
    by_cases hu : u ∈ s
    · simp only [hu, if_true] at he
      by_cases hrem : s.erase u = ∅
      · simp only [hrem, if_true] at he
        exact ih he
      · simp only [hrem, if_false, List.mem_cons] at he
        rcases he with he | he
        · subst he; exact Finset.not_mem_erase _ _
        · exact ih he
    · simp only [hu, if_false, List.mem_cons] at he
      rcases he with he | he
      · subst he; exact hu
      · exact ih he

theorem uau_presenceInv {u : Nat} :
    ∀ {m : List (Nat × Finset Nat)},
      PresenceInv m → PresenceInv (update_active_users m u).1 := by
  intro m
  induction m with
  | nil => intro _; simp [update_active_users, PresenceInv]
  | cons hd rest ih =>
    intro hinv
    obtain ⟨op, s⟩ := hd
    rw [PresenceInv, List.pairwise_cons] at hinv
    obtain ⟨hrel, hrest⟩ := hinv
    have hrest2 := ih hrest
    have hcons : ∀ s2 : Finset Nat, s2 ⊆ s →
        PresenceInv ((op, s2) :: (update_active_users rest u).1) := by
      intro s2 hs2
      rw [PresenceInv, List.pairwise_cons]
      refine ⟨?_, hrest2⟩
      intro b hb
      obtain ⟨b0, hb0, hkey, hsub⟩ := uau_mem_subset hb
      have := hrel b0 hb0
      exact ⟨hkey ▸ this.1, this.2.mono hs2 hsub⟩
    simp only [update_active_users]
    by_cases hu : u ∈ s
    · simp only [hu, if_true]
      by_cases hrem : s.erase u = ∅
      · simp only [hrem, if_true]; exact hrest2
      · simp only [hrem, if_false]
        exact hcons (s.erase u) (Finset.erase_subset _ _)
    · simp only [hu, if_false]
      exact hcons s (subset_refl s)

theorem lookupPresence_eq_none {m : List (Nat × Finset Nat)} {k : Nat} :
    lookupPresence m k = none ↔ ∀ e ∈ m, e.1 ≠ k := by
  simp [lookupPresence, List.find?_eq_none]

theorem uau_keys_sublist {u : Nat} :
    ∀ (m : List (Nat × Finset Nat)),
      ((update_active_users m u).1.map Prod.fst).Sublist (m.map Prod.fst) := by
  intro m
  induction m with
  | nil => simp [update_active_users]
  | cons hd rest ih =>
    obtain ⟨op, s⟩ := hd
    simp only [update_active_users]
    by_cases hu : u ∈ s
    · simp only [hu, if_true]
      by_cases hrem : s.erase u = ∅
      · simp only [hrem, if_true, List.map_cons]
        exact ih.cons _
      · simp only [hrem, if_false, List.map_cons]
        exact ih.cons₂ _
    · simp only [hu, if_false, List.map_cons]
      exact ih.cons₂ _

theorem lookupPresence_eq_none_of_sublist {m : List (Nat × Finset Nat)} {k u : Nat}
    (h : lookupPresence m k = none) :
    lookupPresence (update_active_users m u).1 k = none := by
  rw [lookupPresence_eq_none] at h ⊢
  intro e he
  obtain ⟨e0, he0, hkey, _⟩ := uau_mem_subset he
  exact hkey ▸ h e0 he0

theorem uau_lookup {u k : Nat} :
    ∀ {m : List (Nat × Finset Nat)}, (m.map Prod.fst).Nodup →
      lookupPresence (update_active_users m u).1 k =
        (lookupPresence m k).bind (fun s =>
          if u ∈ s then (if s.erase u = ∅ then none else some (s.erase u))
          else some s) := by
  intro m
  induction m with
  | nil => intro _; simp [update_active_users, lookupPresence]
  | cons hd rest ih =>
    intro hnodup
    obtain ⟨op, s⟩ := hd
    simp only [List.map_cons, List.nodup_cons] at hnodup
    obtain ⟨hop, hnodup2⟩ := hnodup
    by_cases hk : op = k
    · subst hk
      have hnone : lookupPresence rest op = none := by
        rw [lookupPresence_eq_none]
        intro e he hekey
        exact hop (hekey ▸ (List.mem_map_of_mem Prod.fst he))
      have hL : lookupPresence ((op, s) :: rest) op = some s := by
        simp [lookupPresence, List.find?_cons]
      rw [hL]
      simp only [update_active_users]
      by_cases hu : u ∈ s
      · simp only [hu, if_true]
        by_cases hrem : s.erase u = ∅
        · simp only [Option.some_bind, hu, if_true, hrem]
          exact lookupPresence_eq_none_of_sublist hnone
        · simp only [Option.some_bind, hu, if_true, hrem, if_false]
          simp [lookupPresence, List.find?_cons]
      · simp only [hu, if_false, Option.some_bind]
        simp [lookupPresence, List.find?_cons, hu]
    · have hL : lookupPresence ((op, s) :: rest) k = lookupPresence rest k := by
        simp only [lookupPresence, List.find?_cons]
        have : ((op, s).1 == k) = false := by
          simp only [beq_eq_false_iff_ne]; exact hk
        simp [this]
      rw [hL]
      simp only [update_active_users]
      by_cases hu : u ∈ s
      · simp only [hu, if_true]
        by_cases hrem : s.erase u = ∅
        · simp only [hrem, if_true]
          exact ih hnodup2
        · simp only [hrem, if_false]
          have hcons : lookupPresence ((op, s.erase u) :: (update_active_users rest u).1) k =
              lookupPresence (update_active_users rest u).1 k := by
            simp only [lookupPresence, List.find?_cons]
            have : ((op, s.erase u).1 == k) = false := by
              simp only [beq_eq_false_iff_ne]; exact hk
            simp [this]
          rw [hcons]
          exact ih hnodup2
      · simp only [hu, if_false]
        have hcons : lookupPresence ((op, s) :: (update_active_users rest u).1) k =
            lookupPresence (update_active_users rest u).1 k := by
          simp only [lookupPresence, List.find?_cons]
          have : ((op, s).1 == k) = false := by
            simp only [beq_eq_false_iff_ne]; exact hk
          simp [this]
        rw [hcons]
        exact ih hnodup2

theorem lookupPresence_cons_pos {a : Nat × Finset Nat}
    {rest : List (Nat × Finset Nat)} {k : Nat} (h : a.1 = k) :
    lookupPresence (a :: rest) k = some a.2 := by
  simp [lookupPresence, List.find?_cons_of_pos, h]

theorem lookupPresence_cons_neg {a : Nat × Finset Nat}
    {rest : List (Nat × Finset Nat)} {k : Nat} (h : a.1 ≠ k) :
    lookupPresence (a :: rest) k = lookupPresence rest k := by
  have hb : (a.1 == k) = false := beq_eq_false_iff_ne.mpr h
  simp [lookupPresence, List.find?_cons, hb]

theorem lookupPresence_append_of_none {m tail : List (Nat × Finset Nat)} {k : Nat}
    (h : lookupPresence m k = none) :
    lookupPresence (m ++ tail) k = lookupPresence tail k := by
  induction m with
  | nil => simp
  | cons hd rest ih =>
    have hhd : hd.1 ≠ k := (lookupPresence_eq_none.mp h) hd (List.mem_cons_self _ _)
    have hrest : lookupPresence rest k = none := by
      rw [lookupPresence_eq_none]
      intro e he
      exact (lookupPresence_eq_none.mp h) e (List.mem_cons_of_mem _ he)
    rw [List.cons_append, lookupPresence_cons_neg hhd]
    exact ih hrest

theorem lookup_isSome_of_any {m : List (Nat × Finset Nat)} {op : Nat}
    (h : m.any (fun e => e.1 == op) = true) :
    ∃ s, lookupPresence m op = some s := by
  rw [List.any_eq_true] at h
  obtain ⟨e, he, hek⟩ := h
  have hsome : (m.find? (fun e => e.1 == op)).isSome := by
    rw [List.find?_isSome]
    exact ⟨e, he, hek⟩
  obtain ⟨e2, he2⟩ := Option.isSome_iff_exists.mp hsome
  exact ⟨e2.2, by simp [lookupPresence, he2]⟩

theorem lookup_none_of_not_any {m : List (Nat × Finset Nat)} {op : Nat}
    (h : m.any (fun e => e.1 == op) = false) :
    lookupPresence m op = none := by
  rw [lookupPresence_eq_none]
  intro e he hek
  have := List.any_eq_false.mp h e he
  simp [hek] at this

theorem setDefault_lookup_self {m : List (Nat × Finset Nat)} {op : Nat} :
    lookupPresence (presenceSetDefault m op) op =
      some ((lookupPresence m op).getD ∅) := by
  rw [presenceSetDefault]
  by_cases h : m.any (fun e => e.1 == op) = true
  · rw [if_pos h]
    obtain ⟨s, hs⟩ := lookup_isSome_of_any h
    rw [hs]; rfl
  · rw [if_neg h]
    have hnone : lookupPresence m op = none :=
      lookup_none_of_not_any (Bool.eq_false_iff.mpr h)
    rw [hnone, lookupPresence_append_of_none hnone]
    rw [lookupPresence_cons_pos rfl]
    rfl

theorem setDefault_lookup_ne {m : List (Nat × Finset Nat)} {op k : Nat}
    (h : k ≠ op) :
    lookupPresence (presenceSetDefault m op) k = lookupPresence m k := by
  rw [presenceSetDefault]
  by_cases hany : m.any (fun e => e.1 == op) = true
  · rw [if_pos hany]
  · rw [if_neg hany]
    clear hany
    induction m with
    | nil =>
      rw [List.nil_append, lookupPresence_cons_neg (fun hc => h hc.symm)]
    | cons hd rest ih =>
      by_cases hhd : hd.1 = k
      · rw [List.cons_append, lookupPresence_cons_pos hhd,
          lookupPresence_cons_pos hhd]
      · rw [List.cons_append, lookupPresence_cons_neg hhd,
          lookupPresence_cons_neg hhd]
        exact ih

theorem presenceAdd_lookup_self {m : List (Nat × Finset Nat)} {op u : Nat} :
    lookupPresence (presenceAdd m op u) op =
      (lookupPresence m op).map (fun s => insert u s) := by
  rw [presenceAdd]
  induction m with
  | nil => simp [lookupPresence]
  | cons hd rest ih =>
    by_cases hhd : hd.1 = op
    · have hb : (hd.1 == op) = true := beq_iff_eq.mpr hhd
      rw [List.map_cons, hb, if_pos rfl]
      rw [lookupPresence_cons_pos (a := (hd.1, insert u hd.2)) hhd,
        lookupPresence_cons_pos hhd]
      rfl
    · have hb : (hd.1 == op) = false := beq_eq_false_iff_ne.mpr hhd
      rw [List.map_cons, hb]
      rw [if_neg (by simp), lookupPresence_cons_neg hhd, lookupPresence_cons_neg hhd]
      exact ih

theorem presenceAdd_lookup_ne {m : List (Nat × Finset Nat)} {op u k : Nat}
    (h : k ≠ op) :
    lookupPresence (presenceAdd m op u) k = lookupPresence m k := by
  rw [presenceAdd]
  induction m with
  | nil => simp [lookupPresence]
  | cons hd rest ih =>
    by_cases hhd : hd.1 = op
    · have hb : (hd.1 == op) = true := beq_iff_eq.mpr hhd
      rw [List.map_cons, hb, if_pos rfl]
      have hk2 : hd.1 ≠ k := fun hc => h (hc ▸ hhd)
      rw [lookupPresence_cons_neg (a := (hd.1, insert u hd.2)) hk2,
        lookupPresence_cons_neg hk2]
      exact ih
    · have hb : (hd.1 == op) = false := beq_eq_false_iff_ne.mpr hhd
      rw [List.map_cons, hb, if_neg (by simp)]
      by_cases hk2 : hd.1 = k
      · rw [lookupPresence_cons_pos hk2, lookupPresence_cons_pos hk2]
      · rw [lookupPresence_cons_neg hk2, lookupPresence_cons_neg hk2]
        exact ih

theorem setDefault_presenceInv {m : List (Nat × Finset Nat)} {op : Nat}
    (hinv : PresenceInv m) : PresenceInv (presenceSetDefault m op) := by
  rw [presenceSetDefault]
  by_cases hany : m.any (fun e => e.1 == op) = true
  · rw [if_pos hany]; exact hinv
  · rw [if_neg hany]
    rw [PresenceInv, List.pairwise_append]
    refine ⟨hinv, List.pairwise_singleton _ _, ?_⟩
    intro a ha b hb
    rw [List.mem_singleton] at hb
    subst hb
    constructor
    · intro hc
      have := List.any_eq_false.mp (Bool.eq_false_iff.mpr hany) a ha
      simp [hc] at this
    · simp

theorem setDefault_not_mem {m : List (Nat × Finset Nat)} {op u : Nat}
    (h : ∀ e ∈ m, u ∉ e.2) : ∀ e ∈ presenceSetDefault m op, u ∉ e.2 := by
  intro e he
  rw [presenceSetDefault] at he
  by_cases hany : m.any (fun e => e.1 == op) = true
  · rw [if_pos hany] at he; exact h e he
  · rw [if_neg hany] at he
    rcases List.mem_append.mp he with he1 | he1
    · exact h e he1
    · rw [List.mem_singleton] at he1
      subst he1
      simp

theorem presenceAdd_presenceInv {m : List (Nat × Finset Nat)} {op u : Nat}
    (hinv : PresenceInv m) (hu : ∀ e ∈ m, u ∉ e.2) :
    PresenceInv (presenceAdd m op u) := by
  rw [presenceAdd, PresenceInv, List.pairwise_map]
  refine List.Pairwise.imp_of_mem ?_ hinv
  intro a b ha hb hab
  by_cases hak : a.1 = op
  · have hbk : b.1 ≠ op := fun hc => hab.1 (hak.trans hc.symm)
    have hba : (a.1 == op) = true := beq_iff_eq.mpr hak
    have hbb : (b.1 == op) = false := beq_eq_false_iff_ne.mpr hbk
    rw [if_pos (by simp [hba]), if_neg (by simp [hbb])]
    refine ⟨hab.1, ?_⟩
    rw [Finset.disjoint_insert_left]
    exact ⟨hu b hb, hab.2⟩
  · have hba : (a.1 == op) = false := beq_eq_false_iff_ne.mpr hak
    rw [if_neg (by simp [hba])]
    by_cases hbk : b.1 = op
    · have hbb : (b.1 == op) = true := beq_iff_eq.mpr hbk
      rw [if_pos (by simp [hbb])]
      refine ⟨hab.1, ?_⟩
      rw [Finset.disjoint_insert_right]
      exact ⟨hu a ha, hab.2⟩
    · have hbb : (b.1 == op) = false := beq_eq_false_iff_ne.mpr hbk
      rw [if_neg (by simp [hbb])]
      exact hab

theorem presenceInv_keys_nodup {m : List (Nat × Finset Nat)}
    (hinv : PresenceInv m) : (m.map Prod.fst).Nodup :=
  List.pairwise_map.mpr (hinv.imp (fun h => h.1))

theorem hos_none {db : DB} {st : SocketsState} {token : String} {op : Nat}
    (hv : db.verify_auth_token token = none) :
    handle_operation_selected db st token op = (st, []) := by
  unfold handle_operation_selected
  rw [hv]

theorem hos_presence_eq {db : DB} {st : SocketsState} {token : String}
    {op : Nat} {user : UserRec} (hv : db.verify_auth_token token = some user) :
    (handle_operation_selected db st token op).1.active_users_per_operation =
      presenceAdd (presenceSetDefault
        (update_active_users st.active_users_per_operation user.id).1 op) op user.id := by
  unfold handle_operation_selected
  rw [hv]

theorem hos_sockets_eq {db : DB} {st : SocketsState} {token : String}
    {op : Nat} {user : UserRec} (hv : db.verify_auth_token token = some user) :
    (handle_operation_selected db st token op).1.sockets = st.sockets := by
  unfold handle_operation_selected
  rw [hv]

theorem hos_emissions_eq {db : DB} {st : SocketsState} {token : String}
    {op : Nat} {user : UserRec} (hv : db.verify_auth_token token = some user) :
    (handle_operation_selected db st token op).2 =
      (update_active_users st.active_users_per_operation user.id).2 ++
        [Emission.mk (SocketEvent.activeUserUpdate op
          ((lookupPresence (presenceAdd (presenceSetDefault
            (update_active_users st.active_users_per_operation user.id).1 op)
            op user.id) op).getD ∅).card) Target.all] := by
  unfold handle_operation_selected
  rw [hv]

theorem hos_presenceInv {db : DB} {st : SocketsState} {token : String} {op : Nat}
    (hinv : PresenceInv st.active_users_per_operation) :
    PresenceInv (handle_operation_selected db st token op).1.active_users_per_operation := by
  cases hv : db.verify_auth_token token with
  | none => rw [hos_none hv]; exact hinv
  | some user =>
    rw [hos_presence_eq hv]
    exact presenceAdd_presenceInv
      (setDefault_presenceInv (uau_presenceInv hinv))
      (setDefault_not_mem (fun e he => uau_not_mem he))

theorem runSelected_presenceInv (db : DB) (evs : List (String × Nat)) :
    ∀ (st : SocketsState), PresenceInv st.active_users_per_operation →
      PresenceInv ((runSelected db st evs).active_users_per_operation) := by
  induction evs with
  | nil => intro st h; exact h
  | cons ev rest ih =>
    intro st h
    obtain ⟨token, op⟩ := ev
    exact ih _ (hos_presenceInv h)

/-- C2: for every sequence of `operation-selected` events run from a fresh
`SocketsManager`, each user id appears in at most one operation's presence
set: `handle_operation_selected` first removes the user id from every other
operation's set (`update_active_users`) before inserting it, so the
value-sets of `active_users_per_operation` are pairwise disjoint. -/
theorem presence_user_in_at_most_one_operation (db : DB)
    (evs : List (String × Nat)) :
    List.Pairwise (fun a b => Disjoint a.2 b.2)
      ((runSelected db initSocketsState evs).active_users_per_operation) := by
  have h := runSelected_presenceInv db evs initSocketsState
    (by rw [initSocketsState, PresenceInv]; exact List.Pairwise.nil)
  exact h.imp (fun hr => hr.2)

/-- C10: re-selecting the operation a user is already active in leaves the
presence mapping unchanged as a key-to-set map (Python dict equality): if
the state satisfies the presence invariant and `user.id` is in `op`'s set,
then after `handle_operation_selected` every key looks up to the same set
as before. -/
theorem reselect_active_operation_idempotent (db : DB) (st : SocketsState)
    (token : String) (op : Nat) (user : UserRec) (s : Finset Nat)
    (hinv : PresenceInv st.active_users_per_operation)
    (hv : db.verify_auth_token token = some user)
    (hs : lookupPresence st.active_users_per_operation op = some s)
    (hu : user.id ∈ s) :
    ∀ k, lookupPresence
        ((handle_operation_selected db st token op).1.active_users_per_operation) k =
      lookupPresence st.active_users_per_operation k := by
  intro k
  have hnodup := presenceInv_keys_nodup hinv
  rw [hos_presence_eq hv]
  by_cases hk : k = op
  · subst hk
    rw [presenceAdd_lookup_self, setDefault_lookup_self, uau_lookup hnodup, hs]
    simp only [Option.some_bind, hu, if_true]
    by_cases hrem : s.erase user.id = ∅
    · rw [if_pos hrem]
      have hseq : s = {user.id} := by
        have h2 := Finset.insert_erase hu
        rw [hrem] at h2
        simpa using h2.symm
      simp [hs, hseq]
    · rw [if_neg hrem]
      simp [hs, Finset.insert_erase hu]
  · rw [presenceAdd_lookup_ne hk, setDefault_lookup_ne hk, uau_lookup hnodup]
    cases hlk : lookupPresence st.active_users_per_operation k with
    | none => rfl
    | some t =>
      obtain ⟨ek, hek1, hek2⟩ := Option.map_eq_some'.mp hlk
      obtain ⟨eop, heop1, heop2⟩ := Option.map_eq_some'.mp hs
      have hekm : ek ∈ st.active_users_per_operation :=
        List.mem_of_find?_eq_some hek1
      have heopm : eop ∈ st.active_users_per_operation :=
        List.mem_of_find?_eq_some heop1
      have hekk : ek.1 = k := by
        have h3 := List.find?_some hek1
        simpa using h3
      have heopk : eop.1 = op := by
        have h3 := List.find?_some heop1
        simpa using h3
      have hne : ek ≠ eop := by
        intro hc
        exact hk ((hekk.symm.trans (congrArg Prod.fst hc)).trans heopk)
      have hsymm : Symmetric (fun a b : Nat × Finset Nat =>
          a.1 ≠ b.1 ∧ Disjoint a.2 b.2) := by
        intro a b hab
        exact ⟨hab.1.symm, hab.2.symm⟩
      have hdisj := (hinv.forall hsymm hekm heopm hne).2
      have hut : user.id ∉ t := by
        intro hc
        have : user.id ∈ eop.2 := heop2 ▸ hu
        exact (Finset.disjoint_left.mp hdisj (hek2 ▸ hc)) this
      simp [hut]

/-- C10 witness: user 5 is alone in operation 1's presence set; re-selecting
operation 1 leaves the lookup at key 1 unchanged. -/
theorem reselect_active_operation_idempotent_witness :
    lookupPresence ((handle_operation_selected dbA
        (SocketsState.mk [] [(1, ({5} : Finset Nat))]) "t5" 1).1.active_users_per_operation) 1 =
      lookupPresence [(1, ({5} : Finset Nat))] 1 :=
  reselect_active_operation_idempotent dbA
    (SocketsState.mk [] [(1, ({5} : Finset Nat))]) "t5" 1
    (UserRec.mk 5 "alice") {5}
    (by rw [PresenceInv]; exact List.pairwise_singleton _ _)
    (by decide) (by decide) (by decide) 1

theorem foldl_no_match (sid : Nat) :
    ∀ (l : List SocketEntry) (acc : Option Nat),
      (∀ d ∈ l, (d.s_id == sid) = false) →
      l.foldl (fun u_id ss => if ss.s_id == sid then some ss.u_id else u_id) acc = acc := by
  intro l
  induction l with
  | nil => intro acc _; rfl
  | cons hd rest ih =>
    intro acc h
    rw [List.foldl_cons]
    have hhd := h hd (List.mem_cons_self _ _)
    rw [if_neg (by simp [hhd])]
    exact ih acc (fun d hd2 => h d (List.mem_cons_of_mem _ hd2))

theorem get_user_id_filter (l : List SocketEntry) (sid : Nat) :
    get_user_id (l.filter (fun d => d.s_id != sid)) sid = none := by
  rw [get_user_id]
  apply foldl_no_match
  intro d hd
  have h2 := (List.mem_filter.mp hd).2
  simpa [bne] using h2

theorem filter_self_idem {α : Type} (p : α → Bool) (l : List α) :
    (l.filter p).filter p = l.filter p := by
  rw [List.filter_filter]
  simp [Bool.and_self]

/-- C8: the disconnect handler is idempotent: running `handle_disconnect`
a second time for the same session id leaves the registry and the presence
mapping unchanged and emits nothing (the first run removed every registry
entry for that session id, so the user lookup fails and no presence update
happens). -/
theorem handle_disconnect_idempotent (st : SocketsState) (sid : Nat) :
    handle_disconnect (handle_disconnect st sid).1 sid =
      ((handle_disconnect st sid).1, []) := by
  set st1 := (handle_disconnect st sid).1 with hst1
  have hsock : st1.sockets = st.sockets.filter (fun d => d.s_id != sid) := rfl
  have hnone : get_user_id st1.sockets sid = none := by
    rw [hsock]; exact get_user_id_filter _ _
  unfold handle_disconnect
  rw [hnone]
  have hfix : st1.sockets.filter (fun d => d.s_id != sid) = st1.sockets := by
    rw [hsock]
    exact filter_self_idem _ _
  rw [hfix]

/-- C3: a `chat-message` event from a user whose permission on the target
operation is absent or viewer-level mutates nothing and emits nothing:
`handle_message` returns the store unchanged with an empty emission
list (silent denial, no error event). -/
theorem viewer_chat_message_silently_dropped (db : DB) (token : String)
    (op_id : Nat) (reply_id : Int) (message_text : String) (user : UserRec)
    (hv : db.verify_auth_token token = some user)
    (hperm : db.queryPermission user.id op_id = none ∨
      ∃ p, db.queryPermission user.id op_id = some p ∧
        p.access_level = AccessLevel.viewer) :
    handle_message db token op_id reply_id message_text = (db, []) := by
  have hfalse : permission_check_emit db user.id op_id = false := by
    rw [permission_check_emit]
    rcases hperm with h | ⟨p, hp, hviewer⟩
    · rw [h]
    · simp [hp, hviewer]
  unfold handle_message
  simp only [hv]
  rw [if_neg (by rw [hfalse]; exact Bool.false_ne_true)]

/-- C3 witness: user 6 is a viewer on operation 1; their chat message is
dropped without any mutation or emission. -/
theorem viewer_chat_message_silently_dropped_witness :
    dbA.verify_auth_token "t6" = some (UserRec.mk 6 "bob") ∧
    handle_message dbA "t6" 1 (-1) "hi" = (dbA, []) :=
  ⟨by decide,
    viewer_chat_message_silently_dropped dbA "t6" 1 (-1) "hi"
      (UserRec.mk 6 "bob") (by decide)
      (Or.inr ⟨PermissionRec.mk 6 1 AccessLevel.viewer, by decide, rfl⟩)⟩

/-- C7: an accepted `chat-message` (token valid, `can_emit` true) emits
exactly one event: `chat-message-client` when `reply_id = -1`,
`chat-message-reply-client` for any other reply id. -/
theorem chat_message_reply_routing (db : DB) (token : String) (op_id : Nat)
    (reply_id : Int) (message_text : String) (user : UserRec)
    (hv : db.verify_auth_token token = some user)
    (hperm : permission_check_emit db user.id op_id = true) :
    (reply_id = -1 →
      ∃ d, (handle_message db token op_id reply_id message_text).2 =
        [Emission.mk (SocketEvent.chatMessageClient d) Target.all]) ∧
    (reply_id ≠ -1 →
      ∃ d, (handle_message db token op_id reply_id message_text).2 =
        [Emission.mk (SocketEvent.chatMessageReplyClient d) Target.all]) := by
  constructor
  · intro h
    unfold handle_message
    simp only [hv]
    rw [if_pos hperm, if_pos h]
    exact ⟨_, rfl⟩
  · intro h
    unfold handle_message
    simp only [hv]
    rw [if_pos hperm, if_neg h]
    exact ⟨_, rfl⟩

/-- C7 witness: user 5 (creator) sends a top-level message and a reply. -/
theorem chat_message_reply_routing_witness :
    permission_check_emit dbA 5 1 = true ∧
    (∃ d, (handle_message dbA "t5" 1 (-1) "hi").2 =
      [Emission.mk (SocketEvent.chatMessageClient d) Target.all]) ∧
    (∃ d, (handle_message dbA "t5" 1 3 "hi").2 =
      [Emission.mk (SocketEvent.chatMessageReplyClient d) Target.all]) :=
  ⟨by decide,
    (chat_message_reply_routing dbA "t5" 1 (-1) "hi" (UserRec.mk 5 "alice")
      (by decide) (by decide)).1 rfl,
    (chat_message_reply_routing dbA "t5" 1 3 "hi" (UserRec.mk 5 "alice")
      (by decide) (by decide)).2 (by decide)⟩

/-- C5: the `start` event with a valid token appends the
(session id, user id) pair to the registry and joins the room of every
operation on which the user holds any permission record, regardless of
access level; with an invalid token it changes nothing and emits
nothing. -/
theorem start_event_joins_permitted_rooms (db : DB) (st : SocketsState)
    (sid : Nat) (token : String) :
    (db.verify_auth_token token = none →
      handle_start_event db st sid token = (st, [])) ∧
    (∀ user, db.verify_auth_token token = some user →
      handle_start_event db st sid token =
        ({ st with sockets := st.sockets ++ [SocketEntry.mk sid user.id] },
          (db.permissions.filter (fun p => p.u_id == user.id)).map
            (fun p => Output.joinRoom (toString p.op_id))) ∧
      ∀ p ∈ db.permissions, p.u_id = user.id →
        Output.joinRoom (toString p.op_id) ∈ (handle_start_event db st sid token).2) := by
  constructor
  · intro h
    unfold handle_start_event
    rw [h]
  · intro user h
    have heq : handle_start_event db st sid token =
        ({ st with sockets := st.sockets ++ [SocketEntry.mk sid user.id] },
          (db.permissions.filter (fun p => p.u_id == user.id)).map
            (fun p => Output.joinRoom (toString p.op_id))) := by
      unfold handle_start_event
      rw [h]
    refine ⟨heq, ?_⟩
    intro p hp hpu
    rw [heq]
    exact List.mem_map_of_mem _
      (List.mem_filter.mpr ⟨hp, beq_iff_eq.mpr hpu⟩)

/-- C5 witness: user 5 holds one permission (operation 1); starting joins
room "1" and registers the connection. -/
theorem start_event_joins_permitted_rooms_witness :
    dbA.verify_auth_token "t5" = some (UserRec.mk 5 "alice") ∧
    handle_start_event dbA initSocketsState 3 "t5" =
      (SocketsState.mk [SocketEntry.mk 3 5] [], [Output.joinRoom "1"]) :=
  ⟨by decide,
    by
      have h := ((start_event_joins_permitted_rooms dbA initSocketsState 3 "t5").2
        (UserRec.mk 5 "alice") (by decide)).1
      rw [h]
      decide⟩

/-- C4: `file-save` with a valid token: on permission failure or store
failure nothing is mutated and nothing is emitted; when the permission
check and the store write both succeed, exactly one Change record and
exactly one system chat message are appended, and exactly two events go
out, the system chat message first and `file-changed` second — both only
produced in the success branch, after the store write.  (`FileManager`
and `ChatManager` are modelled from the spec.) -/
theorem file_save_no_partial_application (db : DB) (token : String)
    (op_id : Nat) (content comment : String) (version_name : Option String)
    (messageText : String) (user : UserRec)
    (hv : db.verify_auth_token token = some user) :
    (permission_check_emit db user.id op_id = false →
      handle_file_save db token op_id content comment version_name messageText =
        (db, [])) ∧
    (permission_check_emit db user.id op_id = true →
      db.store_available = false →
      handle_file_save db token op_id content comment version_name messageText =
        (db, [])) ∧
    (permission_check_emit db user.id op_id = true →
      db.store_available = true →
      ∃ c msg,
        (handle_file_save db token op_id content comment version_name messageText).1.changes =
          db.changes ++ [c] ∧
        (handle_file_save db token op_id content comment version_name messageText).1.messages =
          db.messages ++ [msg] ∧
        msg.message_type = MessageType.SYSTEM_MESSAGE ∧
        (handle_file_save db token op_id content comment version_name messageText).2 =
          [Emission.mk (SocketEvent.chatMessageClient (get_message_dict
            (handle_file_save db token op_id content comment version_name messageText).1
            msg)) Target.all,
           Emission.mk (SocketEvent.fileChanged op_id (some user.id)) Target.all]) := by
  refine ⟨?_, ?_, ?_⟩
  · intro hperm
    unfold handle_file_save
    simp only [hv]
    rw [if_neg (by rw [hperm]; exact Bool.false_ne_true)]
  · intro hperm hstore
    unfold handle_file_save
    simp only [hv]
    rw [if_pos hperm]
    unfold fm_save_file
    rw [if_neg (by rw [hstore]; exact Bool.false_ne_true)]
  · intro hperm hstore
    unfold handle_file_save
    simp only [hv]
    rw [if_pos hperm]
    unfold fm_save_file
    rw [if_pos hstore]
    simp only [cm_add_message]
    exact ⟨_, _, rfl, rfl, rfl, rfl⟩

/-- C4 witness: user 5 (creator) saves on operation 1 with the store
available; one Change and one system message are appended and the two
events go out in order. -/
theorem file_save_no_partial_application_witness :
    dbA.verify_auth_token "t5" = some (UserRec.mk 5 "alice") ∧
    permission_check_emit dbA 5 1 = true ∧
    dbA.store_available = true ∧
    ∃ c msg,
      (handle_file_save dbA "t5" 1 "doc" "" none "").1.changes = dbA.changes ++ [c] ∧
      (handle_file_save dbA "t5" 1 "doc" "" none "").1.messages = dbA.messages ++ [msg] ∧
      msg.message_type = MessageType.SYSTEM_MESSAGE ∧
      (handle_file_save dbA "t5" 1 "doc" "" none "").2 =
        [Emission.mk (SocketEvent.chatMessageClient (get_message_dict
          (handle_file_save dbA "t5" 1 "doc" "" none "").1 msg)) Target.all,
         Emission.mk (SocketEvent.fileChanged 1 (some 5)) Target.all] :=
  ⟨by decide, by decide, rfl,
    (file_save_no_partial_application dbA "t5" 1 "doc" "" none ""
      (UserRec.mk 5 "alice") (by decide)).2.2 (by decide) rfl⟩

/-- C6 (code bug): `permission_check_admin` is not total: when no
permission record exists for the (user, operation) pair the Python body
dereferences `None` and raises instead of returning `False` — rendered
here as `none`, in contrast with the guarded sibling
`permission_check_emit`, which returns `false` on the same input. -/
theorem permission_check_admin_crashes_on_missing_record :
    dbA.queryPermission 7 1 = none ∧
    permission_check_admin dbA 7 1 = none ∧
    permission_check_admin dbA 7 1 ≠ some false ∧
    permission_check_emit dbA 7 1 = false := by
  refine ⟨by decide, by decide, by decide, by decide⟩

theorem uau_emissions_target_all {u : Nat} :
    ∀ {m : List (Nat × Finset Nat)} {e : Emission},
      e ∈ (update_active_users m u).2 → e.target = Target.all := by
  intro m
  induction m with
  | nil => intro e he; simp [update_active_users] at he
  | cons hd rest ih =>
    intro e he
    obtain ⟨op, s⟩ := hd
    simp only [update_active_users] at he
    by_cases hu : u ∈ s
    · simp only [hu, if_true] at he
      by_cases hrem : s.erase u = ∅
      · simp only [hrem, if_true, List.mem_cons] at he
        rcases he with he | he
        · subst he; rfl
        · exact ih he
      · simp only [hrem, if_false, List.mem_cons] at he
        rcases he with he | he
        · subst he; rfl
        · exact ih he
    · simp only [hu, if_false] at he
      exact ih he

/-- C1 counterexample: the code broadcasts with no room or connection
scoping.  User 5 selects operation 1 while connection 7 has never joined
room "1", yet the resulting `active-user-update` is delivered to 7; and
`revoke-permission` for user 6 (whose connection is 3) is delivered to
connection 9, which belongs to user 5. -/
theorem scoped_delivery_counterexample :
    (handle_operation_selected dbA initSocketsState "t5" 1).2 =
      [Emission.mk (SocketEvent.activeUserUpdate 1 1) Target.all] ∧
    deliveredTo [] [7]
      (Emission.mk (SocketEvent.activeUserUpdate 1 1) Target.all) 7 = true ∧
    ([] : List (String × Nat)).contains ("1", 7) = false ∧
    emit_revoke_permission 6 1 =
      [Emission.mk (SocketEvent.revokePermission 1 6) Target.all] ∧
    get_user_id [SocketEntry.mk 3 6, SocketEntry.mk 9 5] 9 = some 5 ∧
    deliveredTo [("1", 3), ("1", 9)] [3, 9]
      (Emission.mk (SocketEvent.revokePermission 1 6) Target.all) 9 = true := by
  refine ⟨by decide, by decide, by decide, by decide, by decide, by decide⟩

/-- C1 (amended): every emission produced by `handle_operation_selected`,
`handle_disconnect` and `emit_revoke_permission` is a global broadcast
(`Target.all`), so it is delivered to every connected client — including
connections that never joined room `op_id` and connections of users other
than the one whose permission was revoked. -/
theorem presence_and_revoke_events_are_global_broadcasts
    (db : DB) (st : SocketsState) (token : String) (op sid u_id : Nat)
    (e : Emission) (rooms : List (String × Nat)) (conns : List Nat) (c : Nat)
    (hsrc : e ∈ (handle_operation_selected db st token op).2 ∨
      e ∈ (handle_disconnect st sid).2 ∨
      e ∈ emit_revoke_permission u_id op) :
    e.target = Target.all ∧
      (conns.contains c = true → deliveredTo rooms conns e c = true) := by
  have htarget : e.target = Target.all := by
    rcases hsrc with h | h | h
    · cases hv : db.verify_auth_token token with
      | none =>
        rw [hos_none hv] at h
        simp at h
      | some user =>
        rw [hos_emissions_eq hv] at h
        rcases List.mem_append.mp h with h2 | h2
        · exact uau_emissions_target_all h2
        · rw [List.mem_singleton] at h2
          subst h2; rfl
    · have hdis : (handle_disconnect st sid).2 =
          (match get_user_id st.sockets sid with
            | some u =>
              if u ≠ 0 then update_active_users st.active_users_per_operation u
              else (st.active_users_per_operation, [])
            | none => (st.active_users_per_operation, [])).2 := rfl
      rw [hdis] at h
      cases hg : get_user_id st.sockets sid with
      | none => rw [hg] at h; simp at h
      | some u =>
        simp only [hg] at h
        by_cases hz : u ≠ 0
        · rw [if_pos hz] at h
          exact uau_emissions_target_all h
        · rw [if_neg hz] at h
          simp at h
    · rw [emit_revoke_permission, List.mem_singleton] at h
      subst h; rfl
  refine ⟨htarget, ?_⟩
  intro hc
  have hform : deliveredTo rooms conns e c = (conns.contains c && true) := by
    rw [deliveredTo, htarget]
  rw [hform, hc]
  rfl

/-- C1 (amended) witness: the `active-user-update` produced by user 5
selecting operation 1 is a global broadcast delivered to connection 7,
which never joined any room. -/
theorem presence_and_revoke_events_are_global_broadcasts_witness :
    Emission.mk (SocketEvent.activeUserUpdate 1 1) Target.all ∈
      (handle_operation_selected dbA initSocketsState "t5" 1).2 ∧
    (Emission.mk (SocketEvent.activeUserUpdate 1 1) Target.all).target =
      Target.all ∧
    deliveredTo [] [7]
      (Emission.mk (SocketEvent.activeUserUpdate 1 1) Target.all) 7 = true :=
  ⟨by decide,
    (presence_and_revoke_events_are_global_broadcasts dbA initSocketsState
      "t5" 1 0 6 (Emission.mk (SocketEvent.activeUserUpdate 1 1) Target.all)
      [] [7] 7 (Or.inl (by decide))).1,
    (presence_and_revoke_events_are_global_broadcasts dbA initSocketsState
      "t5" 1 0 6 (Emission.mk (SocketEvent.activeUserUpdate 1 1) Target.all)
      [] [7] 7 (Or.inl (by decide))).2 (by decide)⟩

theorem dwr_childless {fuel : Nat} {msgs : List MessageRec} {mid : Nat}
    (h : ∀ x ∈ msgs, (x.reply_id == some mid) = false) :
    deleteWithReplies fuel msgs mid = msgs.filter (fun x => x.id != mid) := by
  cases fuel with
  | zero => rfl
  | succ n =>
    have hch : msgs.filter (fun x => x.reply_id == some mid) = [] := by
      rw [List.filter_eq_nil_iff]
      intro a ha
      simp [h a ha]
    simp only [deleteWithReplies, hch]
    rfl

theorem foldl_delete_childless (fuel : Nat) :
    ∀ (cids : List Nat) (acc : List MessageRec),
      (∀ cid ∈ cids, ∀ x ∈ acc, (x.reply_id == some cid) = false) →
      cids.foldl (fun a c => deleteWithReplies fuel a c) acc =
        acc.filter (fun x => !(cids.contains x.id)) := by
  intro cids
  induction cids with
  | nil =>
    intro acc _
    simp
  | cons c tl ih =>
    intro acc h
    rw [List.foldl_cons]
    rw [dwr_childless (fun x hx => h c (List.mem_cons_self _ _) x hx)]
    rw [ih _ (fun cid hcid x hx =>
      h cid (List.mem_cons_of_mem _ hcid) x (List.mem_filter.mp hx).1)]
    rw [List.filter_filter]
    apply List.filter_congr
    intro x _
    rw [List.contains_cons, Bool.not_or, Bool.and_comm]
    rfl

/-- C9: with distinct message ids and a two-level reply tree (no message
replies to a reply), `delete_message` on a top-level message removes the
message and exactly its direct replies, while `delete_message` on a reply
removes only that message. -/
theorem delete_message_cascade (msgs : List MessageRec) (m : MessageRec)
    (hnodup : (msgs.map MessageRec.id).Nodup)
    (h2lvl : ∀ x ∈ msgs, ∀ y ∈ msgs, x.reply_id = some y.id → y.reply_id = none)
    (hm : m ∈ msgs) :
    (m.reply_id = none →
      delete_message msgs m.id =
        msgs.filter (fun x => x.id != m.id && x.reply_id != some m.id)) ∧
    (∀ p, m.reply_id = some p →
      delete_message msgs m.id = msgs.filter (fun x => x.id != m.id)) := by
  constructor
  · intro _
    obtain ⟨n, hn⟩ : ∃ n, msgs.length = n + 1 := by
      cases msgs with
      | nil => cases hm
      | cons a l => exact ⟨l.length, rfl⟩
    have hprem : ∀ cid ∈ (msgs.filter (fun x => x.reply_id == some m.id)).map
        (fun x => x.id),
        ∀ x ∈ msgs.filter (fun x => x.id != m.id),
          (x.reply_id == some cid) = false := by
      intro cid hcid x hx
      obtain ⟨cmsg, hcmem, hcid2⟩ := List.mem_map.mp hcid
      have hcmsg := List.mem_filter.mp hcmem
      have hxm := (List.mem_filter.mp hx).1
      rw [beq_eq_false_iff_ne]
      intro hc
      have hrep : x.reply_id = some cmsg.id := by rw [hc, hcid2]
      have hnone := h2lvl x hxm cmsg hcmsg.1 hrep
      have hcr : cmsg.reply_id = some m.id := by simpa using hcmsg.2
      rw [hnone] at hcr
      cases hcr
    rw [delete_message, hn]
    simp only [deleteWithReplies]
    rw [foldl_delete_childless n _ _ hprem]
    rw [List.filter_filter]
    apply List.filter_congr
    intro x hx
    by_cases hid : x.id = m.id
    · simp [hid]
    · have hidb : (x.id != m.id) = true := by simp [hid]
      rw [hidb, Bool.and_true, Bool.true_and]
      by_cases hrep : x.reply_id = some m.id
      · have hxc : x.id ∈ (msgs.filter (fun y => y.reply_id == some m.id)).map
            (fun y => y.id) :=
          List.mem_map.mpr ⟨x, List.mem_filter.mpr ⟨hx, by simp [hrep]⟩, rfl⟩
        have hcont : ((msgs.filter (fun y => y.reply_id == some m.id)).map
            (fun y => y.id)).contains x.id = true :=
          List.contains_iff_exists_mem_beq.mpr ⟨x.id, hxc, by simp⟩
        rw [hcont, hrep]
        simp
      · have hnc : ((msgs.filter (fun y => y.reply_id == some m.id)).map
            (fun y => y.id)).contains x.id = false := by
          rw [Bool.eq_false_iff]
          intro hcont
          obtain ⟨a, hamem, haeq⟩ := List.contains_iff_exists_mem_beq.mp hcont
          obtain ⟨cmsg, hcmem, hcid2⟩ := List.mem_map.mp hamem
          have hcmsg := List.mem_filter.mp hcmem
          have hideq : x.id = cmsg.id := by
            rw [hcid2]
            exact beq_iff_eq.mp haeq
          have hxeq : x = cmsg :=
            List.inj_on_of_nodup_map hnodup hx hcmsg.1 hideq
          apply hrep
          rw [hxeq]
          simpa using hcmsg.2
        rw [hnc]
        have hrb : (x.reply_id != some m.id) = true := by simp [hrep]
        rw [hrb]
        rfl
  · intro p hp
    have hchildless : ∀ x ∈ msgs, (x.reply_id == some m.id) = false := by
      intro x hx
      rw [beq_eq_false_iff_ne]
      intro hc
      have := h2lvl x hx m hm hc
      rw [hp] at this
      cases this
    rw [delete_message]
    exact dwr_childless hchildless

/-- C9 witness: deleting top-level message 1 also removes its reply
(message 2) but keeps message 3; deleting reply 2 removes only itself. -/
theorem delete_message_cascade_witness :
    (msgsA.map MessageRec.id).Nodup ∧
    delete_message msgsA 1 =
      msgsA.filter (fun x => x.id != 1 && x.reply_id != some 1) ∧
    delete_message msgsA 2 = msgsA.filter (fun x => x.id != 2) :=
  ⟨by decide,
    (delete_message_cascade msgsA (MessageRec.mk 1 1 5 "hello" MessageType.TEXT none 0)
      (by decide) (by decide) (by decide)).1 rfl,
    (delete_message_cascade msgsA (MessageRec.mk 2 1 6 "re" MessageType.TEXT (some 1) 1)
      (by decide) (by decide) (by decide)).2 1 rfl⟩
